import Mathlib

/-!
# tiny-containerd: error classification (`errdefs`) and the container store contract

A shallow embedding of `errdefs/errors.go` and of the declarations of
`containers/containers.go`.

Go `error` values are modelled by the inductive type `GoError`.  Pointer-typed
errors carry the address of their allocation, so that Go's `==` on interface
values (same dynamic type, same pointer) can be decided.  The error values covered
are the ones the package documentation talks about: values made by `errors.New`,
the two `context` errors, and values made by `fmt.Errorf` with `%w`.

`fmt.Errorf` is embedded with the scan of its format string (flags, argument
indexes, width, precision, verb), which decides the operand each verb takes and
so what the result wraps.  The `Store` interface has no implementation in the
repository; its operations are modelled from the specification.
-/

namespace errdefs

/-- A Go value of interface type `error`.

* `nil` is the nil interface value;
* `errorString a s` is the `*errors.errorString` allocated at address `a` by
  `errors.New(s)`;
* `deadlineExceededError` is the value `context.deadlineExceededError{}`
  (an empty struct, not a pointer);
* `wrapError a msg err` is the `*fmt.wrapError` allocated at address `a` by
  `fmt.Errorf` with one `%w` operand `err`;
* `wrapErrors a msg errs` is the `*fmt.wrapErrors` allocated at address `a` by
  `fmt.Errorf` with several `%w` operands. -/
inductive GoError where
  | nil : GoError
  | errorString (addr : Nat) (s : String) : GoError
  | deadlineExceededError : GoError
  | wrapError (addr : Nat) (msg : String) (err : GoError) : GoError
  | wrapErrors (addr : Nat) (msg : String) (errs : List GoError) : GoError

namespace GoError

/-- Go's `==` on two values of interface type `error`: equal dynamic types and
equal dynamic values; pointers are equal when they hold the same address. -/
def eq : GoError → GoError → Bool
  | .nil, .nil => true
  | .errorString a _, .errorString b _ => a == b
  | .deadlineExceededError, .deadlineExceededError => true
  | .wrapError a _ _, .wrapError b _ _ => a == b
  | .wrapErrors a _ _, .wrapErrors b _ _ => a == b
  | _, _ => false

/-- Whether `reflectlite.TypeOf(target).Comparable()` holds: pointer types and
the empty struct `deadlineExceededError` are comparable.  `errors.Is` returns
before asking this of a nil target. -/
def comparable : GoError → Bool
  | .nil => false
  | .errorString _ _ => true
  | .deadlineExceededError => true
  | .wrapError _ _ _ => true
  | .wrapErrors _ _ _ => true

end GoError

open GoError

mutual
/-- The unexported `errors.is`: walk the tree of `err`, comparing each node with
`target`.  None of the modelled dynamic types has an `Is(error) bool` method, so
that branch of the loop is never taken. -/
def is : GoError → GoError → Bool → Bool
  | .nil, _, _ => false
  | .errorString a s, target, targetComparable =>
      targetComparable && GoError.eq (.errorString a s) target
  | .deadlineExceededError, target, targetComparable =>
      targetComparable && GoError.eq .deadlineExceededError target
  | .wrapError a msg err, target, targetComparable =>
      (targetComparable && GoError.eq (.wrapError a msg err) target)
        || is err target targetComparable
  | .wrapErrors a msg errs, target, targetComparable =>
      (targetComparable && GoError.eq (.wrapErrors a msg errs) target)
        || isAny errs target targetComparable
/-- The `for _, err := range x.Unwrap()` loop of `errors.is`. -/
def isAny : List GoError → GoError → Bool → Bool
  | [], _, _ => false
  | e :: es, target, targetComparable =>
      is e target targetComparable || isAny es target targetComparable
end

/-- The exported `errors.Is`. -/
def Is (err target : GoError) : Bool :=
  if GoError.eq err .nil || GoError.eq target .nil then GoError.eq err target
  else is err target (comparable target)

/-- The allocator behind `&errorString{..}` and `&wrapError{..}`: `next` is the
first address not handed out yet, so every allocation is distinct from all the
earlier ones. -/
structure Heap where
  next : Nat
  deriving DecidableEq, Repr

/-- The function `errors.New`: `return &errorString{text}`. -/
def New (h : Heap) (text : String) : GoError × Heap :=
  (.errorString h.next text, ⟨h.next + 1⟩)

/-- The package variable `context.Canceled = errors.New("context canceled")`,
allocated when package `context` is initialised (before `errdefs`, which
imports it). -/
def Canceled : GoError := .errorString 0 "context canceled"

/-- The package variable `context.DeadlineExceeded = deadlineExceededError{}`. -/
def DeadlineExceeded : GoError := .deadlineExceededError

/-- Used internally to represent a missed mapping. -/
def ErrUnknown : GoError := .errorString 1 "unknown"
def ErrInvalidArgument : GoError := .errorString 2 "invalid argument"
def ErrNotFound : GoError := .errorString 3 "not found"
def ErrAlreadyExists : GoError := .errorString 4 "already exists"
def ErrFailedPrecondition : GoError := .errorString 5 "failed precondition"
def ErrUnavailable : GoError := .errorString 6 "unavailable"
/-- Represents not supported and unimplemented. -/
def ErrNotImplemented : GoError := .errorString 7 "not implemented"

/-- The heap once the package variables of `context` and `errdefs` exist: the
eight `errors.New` calls above took the addresses `0` to `7`. -/
def initHeap : Heap := ⟨8⟩

/-- IsInvalidArgument returns true if the error is due to an invalid argument. -/
def IsInvalidArgument (err : GoError) : Bool := Is err ErrInvalidArgument

/-- IsNotFound returns true if the error is due to a missing object. -/
def IsNotFound (err : GoError) : Bool := Is err ErrNotFound

/-- IsAlreadyExists returns true if the error is due to an already existing
metadata item. -/
def IsAlreadyExists (err : GoError) : Bool := Is err ErrAlreadyExists

/-- IsFailedPrecondition returns true if an operation could not proceed due to
the lack of a particular condition. -/
def IsFailedPrecondition (err : GoError) : Bool := Is err ErrFailedPrecondition

/-- IsUnavailable returns true if the error is due to a resource being
unavailable. -/
def IsUnavailable (err : GoError) : Bool := Is err ErrUnavailable

/-- IsNotImplemented returns true if the error is due to not being implemented. -/
def IsNotImplemented (err : GoError) : Bool := Is err ErrNotImplemented

/-- IsCanceled returns true if the error is due to `context.Canceled`. -/
def IsCanceled (err : GoError) : Bool := Is err Canceled

/-- IsDeadlineExceeded returns true if the error is due to
`context.DeadlineExceeded`. -/
def IsDeadlineExceeded (err : GoError) : Bool := Is err DeadlineExceeded

/-- The seven sentinels declared in the `var ( ... )` block, in source order. -/
def sentinels : List GoError :=
  [ErrUnknown, ErrInvalidArgument, ErrNotFound, ErrAlreadyExists,
   ErrFailedPrecondition, ErrUnavailable, ErrNotImplemented]

/-- The six predicates whose target is a sentinel of this package, in source
order. -/
def storePredicates : List (GoError → Bool) :=
  [IsInvalidArgument, IsNotFound, IsAlreadyExists, IsFailedPrecondition,
   IsUnavailable, IsNotImplemented]

/-- The two predicates whose target is a `context` error. -/
def contextPredicates : List (GoError → Bool) := [IsCanceled, IsDeadlineExceeded]

/-- Every predicate the package exports, in source order. -/
def exportedPredicates : List (GoError → Bool) := storePredicates ++ contextPredicates

/-- The helper `tooLarge` of package fmt: whether a number of the format is
beyond the largest width, precision or index the printer accepts. -/
def tooLarge (x : Nat) : Bool := decide (1000000 < x)

/-- The loop of `parsenum`, over the bytes of `s[start:end]` that remain. -/
def parsenumLoop : List Char → Nat → Bool → Nat × Bool × List Char
  | [], num, isnum => (num, isnum, [])
  | c :: cs, num, isnum =>
      if '0' ≤ c ∧ c ≤ '9' then
        if tooLarge num then (0, false, [])
        else parsenumLoop cs (num * 10 + (c.toNat - '0'.toNat)) true
      else (num, isnum, c :: cs)

/-- The function `parsenum` of package fmt on the bytes `s[start:end]`: the
number read, whether there was one, and the bytes after it.  A number that is
too large gives up at `end`. -/
def parsenum (cs : List Char) : Nat × Bool × List Char := parsenumLoop cs 0 false

/-- The function `parseArgNumber` of package fmt on a format that begins with
an opening bracket: the index (zero-based, so `-1` for `[0]`), the rest of the
format after what was read, and whether the bracket held a number. -/
def parseArgNumber (cs : List Char) : Int × List Char × Bool :=
  if cs.length < 3 then (0, cs.drop 1, false)
  else
    match (cs.drop 1).dropWhile (fun c => c != ']') with
    | [] => (0, cs.drop 1, false)
    | _ :: after =>
        match parsenum ((cs.drop 1).takeWhile (fun c => c != ']')) with
        | (width, true, []) => ((width : Int) - 1, after, true)
        | _ => (0, after, false)

/-- The local variables of one step of the loop of `doPrintf`, with the one
field of the printer, `reordered`, that later steps read. -/
structure Directive where
  argNum : Nat
  rest : List Char
  afterIndex : Bool
  goodArgNum : Bool
  reordered : Bool

/-- The method `argNumber` of the printer: read an explicit argument index
such as `[1]` when the format has one here. -/
def argNumber (d : Directive) (numArgs : Nat) : Directive :=
  match d.rest with
  | '[' :: cs =>
      match parseArgNumber ('[' :: cs) with
      | (index, rest, ok) =>
          if ok ∧ 0 ≤ index ∧ index < (numArgs : Int) then
            { d with argNum := index.toNat, rest := rest, afterIndex := true, reordered := true }
          else
            { d with rest := rest, afterIndex := ok, goodArgNum := false, reordered := true }
  | _ => { d with afterIndex := false }

/-- The function `intFromArg` of package fmt for operands that are errors: no
operand is an integer, and the operand is used up when there is one. -/
def intFromArg (numArgs argNum : Nat) : Nat :=
  if argNum < numArgs then argNum + 1 else argNum

/-- The flag loop `simpleFormat` of `doPrintf`: skip the flags; a lower-case
ASCII verb right after them, with an operand left, takes the fast path and is
returned with the rest of the format. -/
def simpleFormat : List Char → Bool → Option Char × List Char
  | [], _ => (none, [])
  | c :: cs, operandLeft =>
      if c = '#' ∨ c = '0' ∨ c = '+' ∨ c = '-' ∨ c = ' ' then simpleFormat cs operandLeft
      else if 'a' ≤ c ∧ c ≤ 'z' ∧ operandLeft = true then (some c, cs)
      else (none, c :: cs)

/-- The width of a directive: `*` takes it from an operand, otherwise it is a
number of the format. -/
def width (d : Directive) (numArgs : Nat) : Directive :=
  match d.rest with
  | '*' :: cs => { d with argNum := intFromArg numArgs d.argNum, rest := cs, afterIndex := false }
  | cs =>
      match parsenum cs with
      | (_, widPresent, rest) =>
          { d with rest := rest, goodArgNum := d.goodArgNum && !(d.afterIndex && widPresent) }

/-- The precision of a directive, after a dot. -/
def precision (d : Directive) (numArgs : Nat) : Directive :=
  match d.rest with
  | '.' :: cs =>
      let d1 := argNumber { d with rest := cs, goodArgNum := d.goodArgNum && !d.afterIndex } numArgs
      match d1.rest with
      | '*' :: cs1 =>
          { d1 with argNum := intFromArg numArgs d1.argNum, rest := cs1, afterIndex := false }
      | cs1 => { d1 with rest := (parsenum cs1).2.2 }
  | _ => d

/-- The fields of the printer `pp` that decide what `Errorf` wraps. -/
structure pp where
  wrappedErrs : List Nat
  reordered : Bool
  deriving DecidableEq, Repr

/-- The method `doPrintf` of the printer, without the text it writes: the scan
of the format that decides which operand each verb takes and which operands
`%w` marks as wrapped.  One unit of `fuel` is spent per `%` directive. -/
def doPrintf : Nat → List Char → Nat → Nat → pp → pp
  | 0, _, _, _, p => p
  | fuel + 1, format, numArgs, argNum, p =>
      match format.dropWhile (fun c => c != '%') with
      | [] => p
      | _ :: cs =>
          match simpleFormat cs (decide (argNum < numArgs)) with
          | (some c, rest) =>
              doPrintf fuel rest numArgs (argNum + 1)
                (if c = 'w' then { p with wrappedErrs := p.wrappedErrs ++ [argNum] } else p)
          | (none, rest) =>
              let d0 : Directive := ⟨argNum, rest, false, true, p.reordered⟩
              let d2 := precision (width (argNumber d0 numArgs) numArgs) numArgs
              let d3 := if d2.afterIndex then d2 else argNumber d2 numArgs
              match d3.rest with
              | [] => { p with reordered := d3.reordered }
              | verb :: rest3 =>
                  if verb = '%' ∨ d3.goodArgNum = false ∨ numArgs ≤ d3.argNum then
                    doPrintf fuel rest3 numArgs d3.argNum { p with reordered := d3.reordered }
                  else
                    doPrintf fuel rest3 numArgs (d3.argNum + 1)
                      ⟨if verb = 'w' then p.wrappedErrs ++ [d3.argNum] else p.wrappedErrs,
                        d3.reordered⟩

/-- The operands that `Errorf` puts in a `wrapErrors`: an index equal to the one
before it is skipped, and so is an operand that is not an error. -/
def wrappedOperands (a : List GoError) : Option Nat → List Nat → List GoError
  | _, [] => []
  | before, i :: is =>
      if before = some i then wrappedOperands a (some i) is
      else
        match a.getD i .nil with
        | .nil => wrappedOperands a (some i) is
        | e => e :: wrappedOperands a (some i) is

/-- The function `fmt.Errorf(format, a...)` (Go 1.20 and later) for operands of
interface type `error`.  `s` is the text the printer wrote, `string(p.buf)`:
the printing of values is not modelled and no predicate reads the text. -/
def Errorf (s : String) (h : Heap) (format : String) (a : List GoError) : GoError × Heap :=
  let p := doPrintf (format.length + 1) format.toList a.length 0 ⟨[], false⟩
  match p.wrappedErrs with
  | [] => New h s
  | [i] => (.wrapError h.next s (a.getD i .nil), ⟨h.next + 1⟩)
  | is =>
      (.wrapErrors h.next s
          (wrappedOperands a none (if p.reordered then is.insertionSort (· ≤ ·) else is)),
        ⟨h.next + 1⟩)

/-- The errors that `err` wraps directly: the result of its `Unwrap` method,
when it has one. -/
def unwrap : GoError → List GoError
  | .wrapError _ _ err => [err]
  | .wrapErrors _ _ errs => errs
  | _ => []

/-- The relation `InChain target n err`: `target` occurs in the wrap chain of `err` at depth
`n`; depth `0` is `err` itself, depth `n + 1` is depth `n` of something `err`
wraps. -/
inductive InChain (target : GoError) : Nat → GoError → Prop where
  | self {e : GoError} : GoError.eq e target = true → InChain target 0 e
  | step {n : Nat} {e e2 : GoError} :
      e2 ∈ unwrap e → InChain target n e2 → InChain target (n + 1) e

/-- Wrap `base` once per entry of `ws`, each time in a single-cause wrapper
(`fmt.Errorf` with one `%w`) with the given address and message; the head of
`ws` is the outermost wrapper. -/
def wrapMany : List (Nat × String) → GoError → GoError
  | [], base => base
  | (a, msg) :: ws, base => .wrapError a msg (wrapMany ws base)

mutual
/-- A linear wrap chain: every link wraps at most one error. -/
def linear : GoError → Bool
  | .nil => true
  | .errorString _ _ => true
  | .deadlineExceededError => true
  | .wrapError _ _ err => linear err
  | .wrapErrors _ _ errs => linearList errs
/-- The list wrapped by a link of a linear chain: empty or one linear error. -/
def linearList : List GoError → Bool
  | [] => true
  | e :: es => linear e && es.isEmpty
end

/-- An error that wraps all eight targets at once, as
`fmt.Errorf("%w %w %w %w %w %w %w %w", ...)` builds it. -/
def allKinds : GoError :=
  .wrapErrors 8 "all kinds"
    [ErrInvalidArgument, ErrNotFound, ErrAlreadyExists, ErrFailedPrecondition,
     ErrUnavailable, ErrNotImplemented, Canceled, DeadlineExceeded]

end errdefs

namespace containers

open errdefs

/-- Modelled from the spec: the external type `typeurl.Any`, whose package is not
part of the repository.  The spec describes it as an opaque typed payload, a
type identifier plus binary content, that the store never interprets. -/
structure Any where
  typeURL : String
  value : List (Fin 256)
  deriving DecidableEq, Repr

/-- RuntimeInfo holds runtime specific information. -/
structure RuntimeInfo where
  Name : String
  Options : Option Any
  deriving DecidableEq, Repr

/-- Container represents the set of data pinned by a container.  Go maps are
association lists, interface-typed payloads are optional (a nil interface is
`none`), and a `time.Time` is an instant counted in nanoseconds. -/
structure Container where
  ID : String
  Labels : List (String × String)
  Image : String
  Runtime : RuntimeInfo
  Spec : Option Any
  SnapshotKey : String
  Snapshotter : String
  CreateAt : Nat
  UpdateAt : Nat
  Extensions : List (String × Any)
  SandboxID : String
  deriving DecidableEq, Repr

/-- The fields of `Container`, in declaration order. -/
inductive Field where
  | ID | Labels | Image | Runtime | Spec | SnapshotKey | Snapshotter
  | CreateAt | UpdateAt | Extensions | SandboxID
  deriving DecidableEq, Repr

namespace Field

/-- Every field, in declaration order. -/
def all : List Field :=
  [ID, Labels, Image, Runtime, Spec, SnapshotKey, Snapshotter,
   CreateAt, UpdateAt, Extensions, SandboxID]

/-- The name of a field as written in the struct declaration. -/
def name : Field → String
  | ID => "ID"
  | Labels => "Labels"
  | Image => "Image"
  | Runtime => "Runtime"
  | Spec => "Spec"
  | SnapshotKey => "SnapshotKey"
  | Snapshotter => "Snapshotter"
  | CreateAt => "CreateAt"
  | UpdateAt => "UpdateAt"
  | Extensions => "Extensions"
  | SandboxID => "SandboxID"

/-- Modelled from the spec: the mutability column of the data model table.
Labels, Image, Spec, SnapshotKey and Extensions are mutable; ID, Runtime,
Snapshotter and SandboxID are immutable; the two timestamps are set by the store
alone. -/
def isMutable : Field → Bool
  | Labels => true
  | Image => true
  | Spec => true
  | SnapshotKey => true
  | Extensions => true
  | _ => false

end Field

/-- The container `dst` with its field `f` replaced by the one of `src`. -/
def copyField (f : Field) (src dst : Container) : Container :=
  match f with
  | .ID => { dst with ID := src.ID }
  | .Labels => { dst with Labels := src.Labels }
  | .Image => { dst with Image := src.Image }
  | .Runtime => { dst with Runtime := src.Runtime }
  | .Spec => { dst with Spec := src.Spec }
  | .SnapshotKey => { dst with SnapshotKey := src.SnapshotKey }
  | .Snapshotter => { dst with Snapshotter := src.Snapshotter }
  | .CreateAt => { dst with CreateAt := src.CreateAt }
  | .UpdateAt => { dst with UpdateAt := src.UpdateAt }
  | .Extensions => { dst with Extensions := src.Extensions }
  | .SandboxID => { dst with SandboxID := src.SandboxID }

/-- Whether two containers hold the same value in field `f`. -/
def sameField (f : Field) (a b : Container) : Bool :=
  match f with
  | .ID => a.ID == b.ID
  | .Labels => a.Labels == b.Labels
  | .Image => a.Image == b.Image
  | .Runtime => decide (a.Runtime = b.Runtime)
  | .Spec => decide (a.Spec = b.Spec)
  | .SnapshotKey => a.SnapshotKey == b.SnapshotKey
  | .Snapshotter => a.Snapshotter == b.Snapshotter
  | .CreateAt => a.CreateAt == b.CreateAt
  | .UpdateAt => a.UpdateAt == b.UpdateAt
  | .Extensions => decide (a.Extensions = b.Extensions)
  | .SandboxID => a.SandboxID == b.SandboxID

/-- Modelled from the spec: the cancellation signal of the ambient context at
the time of a call: it has not fired, the context was cancelled, or its deadline
has passed. -/
inductive Signal where
  | live | canceled | deadlineExceeded
  deriving DecidableEq, Repr

/-- Modelled from the spec: the ambient `context.Context` of a store call, which
carries the namespace that scopes the call, the cancellation signal and the
deadline. -/
structure Context where
  ns : String
  signal : Signal
  deriving DecidableEq, Repr

/-- The method `ctx.Err()`: nil while the signal has not fired, then
`context.Canceled` or `context.DeadlineExceeded`. -/
def Context.Err (ctx : Context) : GoError :=
  match ctx.signal with
  | .live => .nil
  | .canceled => Canceled
  | .deadlineExceeded => DeadlineExceeded

/-- Modelled from the spec: a state of an implementation of the `Store`
interface; the repository declares the interface and holds no implementation.
A state is the list of stored records, each with its namespace. -/
structure Store where
  records : List (String × Container)
  deriving DecidableEq, Repr

namespace Store

/-- Whether a stored entry is the record `id` of the namespace of `ctx`. -/
def isEntry (ctx : Context) (id : String) (r : String × Container) : Bool :=
  r.1 == ctx.ns && r.2.ID == id

/-- Modelled from the spec: `Get(id)`, which has no implementation in the
repository.  When the signal of the context has fired the call aborts and
returns Canceled or DeadlineExceeded.  Otherwise it returns the container, or
fails with NotFound when `id` is unknown in the current namespace.  It has no
side effect. -/
def Get (ctx : Context) (id : String) (st : Store) : Except GoError Container :=
  if ctx.signal = .live then
    match st.records.find? (isEntry ctx id) with
    | some r => .ok r.2
    | none => .error ErrNotFound
  else
    .error ctx.Err

/-- The field a fieldpath names: the field whose name it spells, if any. -/
def fieldOfPath (path : String) : Option Field :=
  Field.all.find? (fun f => f.name == path)

/-- One step of a scoped update: the field named by `path` is taken from
`container`; naming an immutable field, or no mutable field at all, is an
invalid argument. -/
def applyPath (container : Container) (acc : Container) (path : String) :
    Except GoError Container :=
  match fieldOfPath path with
  | some f => if f.isMutable then .ok (copyField f container acc) else .error ErrInvalidArgument
  | none => .error ErrInvalidArgument

/-- A scoped update: the paths are applied one after the other, and the first
invalid one fails the whole update. -/
def applyPaths (container : Container) : List String → Container → Except GoError Container
  | [], acc => .ok acc
  | path :: paths, acc =>
      match applyPath container acc path with
      | .ok acc2 => applyPaths container paths acc2
      | .error e => .error e

/-- A full update (no fieldpaths): every mutable field is replaced by the one of
`container`; a differing immutable field is an attempt to update it. -/
def replaceAll (container stored : Container) : Except GoError Container :=
  if container.Runtime = stored.Runtime ∧ container.Snapshotter = stored.Snapshotter
      ∧ container.SandboxID = stored.SandboxID then
    .ok { stored with
            Labels := container.Labels, Image := container.Image, Spec := container.Spec,
            SnapshotKey := container.SnapshotKey, Extensions := container.Extensions }
  else
    .error ErrInvalidArgument

/-- Modelled from the spec: `Update(container, fieldpaths...)` at the instant
`now`, which has no implementation in the repository.  When the signal of the
context has fired the call aborts, returns Canceled or DeadlineExceeded and
mutates nothing.  Otherwise `container.ID` must reference an existing record or
the call fails with NotFound.  With no fieldpaths every mutable field is
replaced; with fieldpaths only the named fields are mutated; updating an
immutable field fails with InvalidArgument; a failed call leaves the record
unchanged; on success `UpdateAt` is refreshed to the current time. -/
def Update (ctx : Context) (container : Container) (fieldpaths : List String) (now : Nat)
    (st : Store) : Store × Except GoError Container :=
  if ctx.signal = .live then
    match st.records.find? (isEntry ctx container.ID) with
    | none => (st, .error ErrNotFound)
    | some r =>
        let changed :=
          if fieldpaths.isEmpty then replaceAll container r.2
          else applyPaths container fieldpaths r.2
        match changed with
        | .error e => (st, .error e)
        | .ok c =>
            let updated := { c with UpdateAt := now }
            (⟨st.records.map (fun e => if isEntry ctx container.ID e then (e.1, updated) else e)⟩,
              .ok updated)
  else
    (st, .error ctx.Err)

end Store

/-- A stored record used to evaluate the store operations. -/
def sampleContainer : Container where
  ID := "c1"
  Labels := [("tier", "web")]
  Image := "docker.io/library/busybox:1"
  Runtime := ⟨"runc", none⟩
  Spec := some ⟨"types.containerd.io/opencontainers/runtime-spec/1/Spec", [1, 2, 3]⟩
  SnapshotKey := "snap-1"
  Snapshotter := "overlayfs"
  CreateAt := 10
  UpdateAt := 10
  Extensions := []
  SandboxID := ""

/-- A container passed to `Update`: it differs from `sampleContainer` in Labels,
in Image and in Snapshotter. -/
def passedContainer : Container :=
  { sampleContainer with
      Labels := [("tier", "db")], Image := "docker.io/library/busybox:2",
      Snapshotter := "native" }

/-- A store that holds `sampleContainer` in the namespace `default`. -/
def sampleStore : Store := ⟨[("default", sampleContainer)]⟩

end containers

/-! ## Theorems about `errdefs` -/

namespace errdefs

open GoError

theorem isAny_eq_true_iff (es : List GoError) (t : GoError) (c : Bool) :
    isAny es t c = true ↔ ∃ e ∈ es, is e t c = true := by
  induction es with
  | nil => simp [isAny]
  | cons e es ih => simp [isAny, ih]

theorem is_of_eq {e t : GoError} (ht : GoError.eq t .nil = false)
    (h : GoError.eq e t = true) : is e t true = true := by
  cases e with
  | nil => cases t <;> simp_all [GoError.eq]
  | errorString a s => simp [is, h]
  | deadlineExceededError => simp [is, h]
  | wrapError a msg err => simp [is, h]
  | wrapErrors a msg errs => simp [is, h]

theorem is_of_unwrap {e e2 t : GoError} {c : Bool} (hmem : e2 ∈ unwrap e)
    (h : is e2 t c = true) : is e t c = true := by
  cases e with
  | nil => simp [unwrap] at hmem
  | errorString a s => simp [unwrap] at hmem
  | deadlineExceededError => simp [unwrap] at hmem
  | wrapError a msg err =>
      simp only [unwrap, List.mem_singleton] at hmem
      subst hmem
      simp [is, h]
  | wrapErrors a msg errs =>
      simp only [unwrap] at hmem
      have : isAny errs t c = true := (isAny_eq_true_iff errs t c).2 ⟨e2, hmem, h⟩
      simp [is, this]

theorem is_of_inChain {t : GoError} (ht : GoError.eq t .nil = false) {n : Nat} {e : GoError}
    (h : InChain t n e) : is e t true = true := by
  induction h with
  | self heq => exact is_of_eq ht heq
  | step hmem _ ih => exact is_of_unwrap hmem ih

mutual
theorem inChain_of_is (t : GoError) (c : Bool) :
    ∀ e : GoError, is e t c = true → ∃ n, InChain t n e
  | .nil, h => by simp [is] at h
  | .errorString a s, h => by
      simp only [is, Bool.and_eq_true] at h
      exact ⟨0, InChain.self h.2⟩
  | .deadlineExceededError, h => by
      simp only [is, Bool.and_eq_true] at h
      exact ⟨0, InChain.self h.2⟩
  | .wrapError a msg err, h => by
      simp only [is, Bool.or_eq_true, Bool.and_eq_true] at h
      rcases h with h | h
      · exact ⟨0, InChain.self h.2⟩
      · obtain ⟨n, hn⟩ := inChain_of_is t c err h
        exact ⟨n + 1, InChain.step (by simp [unwrap]) hn⟩
  | .wrapErrors a msg errs, h => by
      simp only [is, Bool.or_eq_true, Bool.and_eq_true] at h
      rcases h with h | h
      · exact ⟨0, InChain.self h.2⟩
      · obtain ⟨e2, hmem, n, hn⟩ := inChain_of_isAny t c errs h
        exact ⟨n + 1, InChain.step (by simpa [unwrap] using hmem) hn⟩
theorem inChain_of_isAny (t : GoError) (c : Bool) :
    ∀ es : List GoError, isAny es t c = true → ∃ e ∈ es, ∃ n, InChain t n e
  | [], h => by simp [isAny] at h
  | e :: es, h => by
      simp only [isAny, Bool.or_eq_true] at h
      rcases h with h | h
      · exact ⟨e, by simp, inChain_of_is t c e h⟩
      · obtain ⟨e2, hmem, hn⟩ := inChain_of_isAny t c es h
        exact ⟨e2, by simp [hmem], hn⟩
end

/-- For a non-nil target, `errors.Is` is the tree walk `is` with the comparable
flag of the target. -/
theorem Is_eq_is {e t : GoError} (ht : GoError.eq t .nil = false) :
    Is e t = is e t (comparable t) := by
  cases e <;> cases t <;> simp_all [Is, GoError.eq, is]

theorem Is_of_inChain (t : GoError) (ht : GoError.eq t .nil = false)
    (hc : comparable t = true) {n : Nat} {e : GoError} (h : InChain t n e) :
    Is e t = true := by
  rw [Is_eq_is ht, hc]
  exact is_of_inChain ht h

theorem inChain_of_Is (t : GoError) (ht : GoError.eq t .nil = false) {e : GoError}
    (h : Is e t = true) : ∃ n, InChain t n e := by
  rw [Is_eq_is ht] at h
  exact inChain_of_is t _ e h

theorem inChain_one (t : GoError) {e e2 : GoError} (hmem : e2 ∈ unwrap e)
    (h : GoError.eq e2 t = true) : InChain t 1 e :=
  InChain.step hmem (InChain.self h)

theorem inChain_two (t e e1 e2 : GoError) (h1 : e1 ∈ unwrap e) (h2 : e2 ∈ unwrap e1)
    (h : GoError.eq e2 t = true) : InChain t 2 e :=
  InChain.step h1 (inChain_one t h2 h)

/-- C1: for each of the eight predicates and every error whose wrap chain holds
the target of the predicate at some depth `n` (depth `0` is the error itself),
the predicate returns true. -/
theorem predicates_true_on_chain (err : GoError) (n : Nat) :
    (InChain ErrInvalidArgument n err → IsInvalidArgument err = true) ∧
    (InChain ErrNotFound n err → IsNotFound err = true) ∧
    (InChain ErrAlreadyExists n err → IsAlreadyExists err = true) ∧
    (InChain ErrFailedPrecondition n err → IsFailedPrecondition err = true) ∧
    (InChain ErrUnavailable n err → IsUnavailable err = true) ∧
    (InChain ErrNotImplemented n err → IsNotImplemented err = true) ∧
    (InChain Canceled n err → IsCanceled err = true) ∧
    (InChain DeadlineExceeded n err → IsDeadlineExceeded err = true) :=
  ⟨Is_of_inChain ErrInvalidArgument rfl rfl,
   Is_of_inChain ErrNotFound rfl rfl,
   Is_of_inChain ErrAlreadyExists rfl rfl,
   Is_of_inChain ErrFailedPrecondition rfl rfl,
   Is_of_inChain ErrUnavailable rfl rfl,
   Is_of_inChain ErrNotImplemented rfl rfl,
   Is_of_inChain Canceled rfl rfl,
   Is_of_inChain DeadlineExceeded rfl rfl⟩

/-- Witness of C1: all eight predicates hold of an error that wraps, at depth 2,
each of the eight targets. -/
theorem predicates_true_on_chain_witness :
    IsInvalidArgument (.wrapError 9 "outer: all kinds" allKinds) = true ∧
    IsNotFound (.wrapError 9 "outer: all kinds" allKinds) = true ∧
    IsAlreadyExists (.wrapError 9 "outer: all kinds" allKinds) = true ∧
    IsFailedPrecondition (.wrapError 9 "outer: all kinds" allKinds) = true ∧
    IsUnavailable (.wrapError 9 "outer: all kinds" allKinds) = true ∧
    IsNotImplemented (.wrapError 9 "outer: all kinds" allKinds) = true ∧
    IsCanceled (.wrapError 9 "outer: all kinds" allKinds) = true ∧
    IsDeadlineExceeded (.wrapError 9 "outer: all kinds" allKinds) = true :=
  have h := predicates_true_on_chain (.wrapError 9 "outer: all kinds" allKinds) 2
  ⟨h.1 (inChain_two ErrInvalidArgument _ allKinds ErrInvalidArgument (by simp [unwrap]) (by simp [unwrap, allKinds]) rfl),
   h.2.1 (inChain_two ErrNotFound _ allKinds ErrNotFound (by simp [unwrap]) (by simp [unwrap, allKinds]) rfl),
   h.2.2.1 (inChain_two ErrAlreadyExists _ allKinds ErrAlreadyExists (by simp [unwrap]) (by simp [unwrap, allKinds]) rfl),
   h.2.2.2.1 (inChain_two ErrFailedPrecondition _ allKinds ErrFailedPrecondition (by simp [unwrap]) (by simp [unwrap, allKinds]) rfl),
   h.2.2.2.2.1 (inChain_two ErrUnavailable _ allKinds ErrUnavailable (by simp [unwrap]) (by simp [unwrap, allKinds]) rfl),
   h.2.2.2.2.2.1 (inChain_two ErrNotImplemented _ allKinds ErrNotImplemented (by simp [unwrap]) (by simp [unwrap, allKinds]) rfl),
   h.2.2.2.2.2.2.1 (inChain_two Canceled _ allKinds Canceled (by simp [unwrap]) (by simp [unwrap, allKinds]) rfl),
   h.2.2.2.2.2.2.2 (inChain_two DeadlineExceeded _ allKinds DeadlineExceeded (by simp [unwrap]) (by simp [unwrap, allKinds]) rfl)⟩

/-- C8: on every error built from `errors.New` values, the sentinels, the two
context errors and `fmt.Errorf` wrapping, each of the eight predicates returns
true only if its target occurs somewhere in the wrap chain of the error. -/
theorem predicates_sound (err : GoError) :
    (IsInvalidArgument err = true → ∃ n, InChain ErrInvalidArgument n err) ∧
    (IsNotFound err = true → ∃ n, InChain ErrNotFound n err) ∧
    (IsAlreadyExists err = true → ∃ n, InChain ErrAlreadyExists n err) ∧
    (IsFailedPrecondition err = true → ∃ n, InChain ErrFailedPrecondition n err) ∧
    (IsUnavailable err = true → ∃ n, InChain ErrUnavailable n err) ∧
    (IsNotImplemented err = true → ∃ n, InChain ErrNotImplemented n err) ∧
    (IsCanceled err = true → ∃ n, InChain Canceled n err) ∧
    (IsDeadlineExceeded err = true → ∃ n, InChain DeadlineExceeded n err) :=
  ⟨inChain_of_Is ErrInvalidArgument rfl,
   inChain_of_Is ErrNotFound rfl,
   inChain_of_Is ErrAlreadyExists rfl,
   inChain_of_Is ErrFailedPrecondition rfl,
   inChain_of_Is ErrUnavailable rfl,
   inChain_of_Is ErrNotImplemented rfl,
   inChain_of_Is Canceled rfl,
   inChain_of_Is DeadlineExceeded rfl⟩

/-- Witness of C8: the predicates that hold of `allKinds` each find their target
in its wrap chain. -/
theorem predicates_sound_witness :
    (∃ n, InChain ErrInvalidArgument n allKinds) ∧
    (∃ n, InChain ErrNotFound n allKinds) ∧
    (∃ n, InChain ErrAlreadyExists n allKinds) ∧
    (∃ n, InChain ErrFailedPrecondition n allKinds) ∧
    (∃ n, InChain ErrUnavailable n allKinds) ∧
    (∃ n, InChain ErrNotImplemented n allKinds) ∧
    (∃ n, InChain Canceled n allKinds) ∧
    (∃ n, InChain DeadlineExceeded n allKinds) :=
  have h := predicates_sound allKinds
  ⟨h.1 (by decide), h.2.1 (by decide), h.2.2.1 (by decide), h.2.2.2.1 (by decide),
   h.2.2.2.2.1 (by decide), h.2.2.2.2.2.1 (by decide), h.2.2.2.2.2.2.1 (by decide),
   h.2.2.2.2.2.2.2 (by decide)⟩

/-- C10: a nil error belongs to no class: each of the eight predicates returns
false on nil. -/
theorem predicates_false_on_nil :
    IsInvalidArgument .nil = false ∧ IsNotFound .nil = false ∧
    IsAlreadyExists .nil = false ∧ IsFailedPrecondition .nil = false ∧
    IsUnavailable .nil = false ∧ IsNotImplemented .nil = false ∧
    IsCanceled .nil = false ∧ IsDeadlineExceeded .nil = false := by
  decide

/-- The claim of C2 as stated fails: `ErrUnknown` is one of the seven sentinels
and no exported predicate returns true on it. -/
theorem no_predicate_for_ErrUnknown :
    ¬ (∀ s ∈ sentinels, ∃ p ∈ exportedPredicates, p s = true) := by
  intro h
  obtain ⟨p, hp, hps⟩ := h ErrUnknown (by simp [sentinels])
  simp only [exportedPredicates, storePredicates, contextPredicates, List.cons_append,
    List.nil_append, List.mem_cons, List.mem_singleton, List.not_mem_nil, or_false] at hp
  rcases hp with rfl | rfl | rfl | rfl | rfl | rfl | rfl | rfl <;> revert hps <;> decide

/-- C2 as amended: each of the six sentinels other than `ErrUnknown` is classified
true by the predicate of its kind, and `ErrUnknown` has no predicate: every
exported predicate returns false on it. -/
theorem sentinels_classified_except_unknown :
    IsInvalidArgument ErrInvalidArgument = true ∧
    IsNotFound ErrNotFound = true ∧
    IsAlreadyExists ErrAlreadyExists = true ∧
    IsFailedPrecondition ErrFailedPrecondition = true ∧
    IsUnavailable ErrUnavailable = true ∧
    IsNotImplemented ErrNotImplemented = true ∧
    exportedPredicates.map (fun p => p ErrUnknown) =
      [false, false, false, false, false, false, false, false] := by
  decide

theorem is_wrapMany (ws : List (Nat × String)) (b t : GoError) (c : Bool)
    (ht : ∀ a msg err, GoError.eq (.wrapError a msg err) t = false) :
    is (wrapMany ws b) t c = is b t c := by
  induction ws with
  | nil => rfl
  | cons w ws ih =>
      obtain ⟨a, msg⟩ := w
      simp [wrapMany, is, ht, ih]

theorem Is_wrapMany (ws : List (Nat × String)) (b t : GoError)
    (ht : ∀ a msg err, GoError.eq (.wrapError a msg err) t = false)
    (hn : GoError.eq t .nil = false) :
    Is (wrapMany ws b) t = Is b t := by
  rw [Is_eq_is hn, Is_eq_is hn, is_wrapMany ws b t _ ht]

/-- C3: an error built by wrapping `context.Canceled` or
`context.DeadlineExceeded` any number of times in single-cause wrappers is
classified false by all six store predicates, and an error built the same way
from any of the seven sentinels (`ErrUnknown` included) is classified false by
`IsCanceled` and by `IsDeadlineExceeded`. -/
theorem context_and_store_kinds_apart (ws : List (Nat × String)) :
    (∀ b ∈ [Canceled, DeadlineExceeded], ∀ p ∈ storePredicates, p (wrapMany ws b) = false) ∧
    (∀ s ∈ sentinels, ∀ p ∈ contextPredicates, p (wrapMany ws s) = false) := by
  constructor
  · intro b hb p hp
    simp only [storePredicates, List.mem_cons, List.mem_singleton, List.not_mem_nil,
      or_false] at hb hp
    rcases hb with rfl | rfl <;> rcases hp with rfl | rfl | rfl | rfl | rfl | rfl <;>
      simp only [IsInvalidArgument, IsNotFound, IsAlreadyExists, IsFailedPrecondition,
        IsUnavailable, IsNotImplemented] <;>
      rw [Is_wrapMany] <;> first | decide | (intros; rfl)
  · intro s hs p hp
    simp only [sentinels, contextPredicates, List.mem_cons, List.mem_singleton,
      List.not_mem_nil, or_false] at hs hp
    rcases hs with rfl | rfl | rfl | rfl | rfl | rfl | rfl <;> rcases hp with rfl | rfl <;>
      simp only [IsCanceled, IsDeadlineExceeded] <;>
      rw [Is_wrapMany] <;> first | decide | (intros; rfl)

/-- Witness of C3: `context.Canceled` wrapped twice is not a NotFound error, and
`ErrNotFound` wrapped twice is not a cancellation. -/
theorem context_and_store_kinds_apart_witness :
    IsNotFound (wrapMany [(9, "get: load: context canceled"), (8, "load: context canceled")]
      Canceled) = false ∧
    IsCanceled (wrapMany [(9, "get: load: not found"), (8, "load: not found")]
      ErrNotFound) = false :=
  ⟨(context_and_store_kinds_apart _).1 Canceled (by simp) IsNotFound (by simp [storePredicates]),
   (context_and_store_kinds_apart _).2 ErrNotFound (by simp [sentinels]) IsCanceled
     (by simp [contextPredicates])⟩

/-- C4: an error newly created by `errors.New(s)` after package initialisation is
classified false by all six store predicates, whatever its text `s`, the texts
of the sentinels included: classification is by identity, not by text. -/
theorem fresh_error_unclassified (s : String) (h : Heap) (hh : initHeap.next ≤ h.next) :
    IsInvalidArgument (New h s).1 = false ∧
    IsNotFound (New h s).1 = false ∧
    IsAlreadyExists (New h s).1 = false ∧
    IsFailedPrecondition (New h s).1 = false ∧
    IsUnavailable (New h s).1 = false ∧
    IsNotImplemented (New h s).1 = false := by
  simp only [initHeap] at hh
  simp only [New, IsInvalidArgument, IsNotFound, IsAlreadyExists, IsFailedPrecondition,
    IsUnavailable, IsNotImplemented, ErrInvalidArgument, ErrNotFound, ErrAlreadyExists,
    ErrFailedPrecondition, ErrUnavailable, ErrNotImplemented, Is, GoError.eq, is, comparable,
    Bool.or_self, Bool.false_eq_true, if_false, Bool.true_and, beq_eq_false_iff_ne, ne_eq]
  omega

/-- Witness of C4: a new error with the very text of `ErrNotFound` is not a
NotFound error, nor of any other store kind. -/
theorem fresh_error_unclassified_witness :
    (New initHeap "not found").1 = .errorString 8 "not found" ∧
    IsInvalidArgument (New initHeap "not found").1 = false ∧
    IsNotFound (New initHeap "not found").1 = false ∧
    IsAlreadyExists (New initHeap "not found").1 = false ∧
    IsFailedPrecondition (New initHeap "not found").1 = false ∧
    IsUnavailable (New initHeap "not found").1 = false ∧
    IsNotImplemented (New initHeap "not found").1 = false :=
  ⟨rfl, fresh_error_unclassified "not found" initHeap (Nat.le_refl _)⟩

theorem Is_wrapError (a : Nat) (msg : String) (err t : GoError)
    (ht : GoError.eq (.wrapError a msg err) t = false) (hn : GoError.eq t .nil = false) :
    Is (.wrapError a msg err) t = Is err t := by
  rw [Is_eq_is hn, Is_eq_is hn]
  simp [is, ht]

theorem parsenumLoop_length (cs : List Char) (num : Nat) (isnum : Bool) :
    (parsenumLoop cs num isnum).2.2.length ≤ cs.length := by
  induction cs generalizing num isnum with
  | nil => simp [parsenumLoop]
  | cons c cs ih =>
      simp only [parsenumLoop]
      split_ifs
      · simp
      · exact Nat.le_succ_of_le (ih _ _)
      · simp

theorem dropWhile_length (q : Char → Bool) (cs : List Char) :
    (cs.dropWhile q).length ≤ cs.length := by
  induction cs with
  | nil => simp
  | cons c cs ih =>
      simp only [List.dropWhile_cons]
      split_ifs
      · exact Nat.le_succ_of_le ih
      · simp

theorem parseArgNumber_length (cs : List Char) :
    (parseArgNumber ('[' :: cs)).2.1.length ≤ cs.length := by
  simp only [parseArgNumber, List.drop_succ_cons, List.drop_zero]
  split_ifs
  · simp
  · have hdrop := dropWhile_length (fun c => c != ']') cs
    split
    · simp
    · rename_i after heq
      rw [heq] at hdrop
      simp only [List.length_cons] at hdrop
      split <;> simp <;> omega

theorem argNumber_length (d : Directive) (numArgs : Nat) :
    (argNumber d numArgs).rest.length ≤ d.rest.length := by
  unfold argNumber
  split
  · rename_i cs heq
    have h := parseArgNumber_length cs
    rw [heq]
    split
    rename_i index rest ok hp
    rw [hp] at h
    simp only [List.length_cons]
    split_ifs <;> simp at h ⊢ <;> omega
  · simp

theorem width_length (d : Directive) (numArgs : Nat) :
    (width d numArgs).rest.length ≤ d.rest.length := by
  unfold width
  split
  · rename_i cs heq
    simp [heq]
  · rename_i cs _
    have h := parsenumLoop_length d.rest 0 false
    simpa [parsenum] using h

theorem precision_length (d : Directive) (numArgs : Nat) :
    (precision d numArgs).rest.length ≤ d.rest.length := by
  unfold precision
  split
  · rename_i cs heq
    have h1 := argNumber_length { d with rest := cs, goodArgNum := d.goodArgNum && !d.afterIndex }
      numArgs
    simp only [heq, List.length_cons] at h1 ⊢
    split
    · rename_i cs1 heq1
      rw [heq1] at h1
      simp only [List.length_cons] at h1 ⊢
      omega
    · have h2 := parsenumLoop_length
        (argNumber { d with rest := cs, goodArgNum := d.goodArgNum && !d.afterIndex }
          numArgs).rest 0 false
      simp only [parsenum] at h2 ⊢
      omega
  · exact Nat.le_refl _

theorem simpleFormat_length (cs : List Char) (operandLeft : Bool) :
    (simpleFormat cs operandLeft).2.length ≤ cs.length := by
  induction cs with
  | nil => simp [simpleFormat]
  | cons c cs ih =>
      simp only [simpleFormat]
      split_ifs
      · exact Nat.le_succ_of_le ih
      · simp
      · simp

/-- The scan never runs out of fuel: each directive uses up at least its `%`,
so any fuel above the length of the format gives the same result. -/
theorem doPrintf_fuel (fuel1 fuel2 : Nat) (format : List Char) (numArgs argNum : Nat) (p : pp)
    (h1 : format.length < fuel1) (h2 : format.length < fuel2) :
    doPrintf fuel1 format numArgs argNum p = doPrintf fuel2 format numArgs argNum p := by
  induction fuel1 generalizing fuel2 format argNum p with
  | zero => omega
  | succ n ih =>
      cases fuel2 with
      | zero => omega
      | succ m =>
          have hdrop := dropWhile_length (fun c => c != '%') format
          simp only [doPrintf]
          split
          · rfl
          · rename_i cs heq
            rw [heq] at hdrop
            simp only [List.length_cons] at hdrop
            have hsf := simpleFormat_length cs (decide (argNum < numArgs))
            split
            · rename_i c rest hs
              rw [hs] at hsf
              exact ih _ _ _ _ (by simp at hsf; omega) (by simp at hsf; omega)
            · rename_i rest hs
              rw [hs] at hsf
              simp only at hsf
              have ha := argNumber_length ⟨argNum, rest, false, true, p.reordered⟩ numArgs
              have hw := width_length (argNumber ⟨argNum, rest, false, true, p.reordered⟩ numArgs)
                numArgs
              have hp := precision_length
                (width (argNumber ⟨argNum, rest, false, true, p.reordered⟩ numArgs) numArgs) numArgs
              have ha2 := argNumber_length
                (precision (width (argNumber ⟨argNum, rest, false, true, p.reordered⟩ numArgs)
                  numArgs) numArgs) numArgs
              simp only at ha
              split
              · rfl
              · rename_i verb rest3 h3
                have hlen : rest3.length < format.length := by
                  split_ifs at h3 with hai
                  · rw [h3] at hp
                    simp only [List.length_cons] at hp
                    omega
                  · rw [h3] at ha2
                    simp only [List.length_cons] at ha2
                    omega
                split_ifs <;> exact ih _ _ _ _ (by omega) (by omega)

theorem dropWhile_literal (l r : List Char) (h : '%' ∉ l) :
    (l ++ r).dropWhile (fun c => c != '%') = r.dropWhile (fun c => c != '%') := by
  induction l with
  | nil => rfl
  | cons c l ih =>
      simp only [List.mem_cons, not_or] at h
      have hc : (c != '%') = true := by
        simp only [bne_iff_ne, ne_eq]
        exact fun hc => h.1 hc.symm
      rw [List.cons_append, List.dropWhile_cons, hc, if_pos rfl]
      exact ih h.2

/-- On a format made of literal text and a final `: %w`, with one operand, the
scan marks that operand as wrapped. -/
theorem doPrintf_literal (fuel : Nat) (l : List Char) (h : '%' ∉ l) :
    doPrintf (fuel + 1) (l ++ [':', ' ', '%', 'w']) 1 0 ⟨[], false⟩ = ⟨[0], false⟩ := by
  have hdrop : ([':', ' ', '%', 'w'] : List Char).dropWhile (fun c => c != '%') = ['%', 'w'] := by
    decide
  have hfast : simpleFormat ['w'] (decide (0 < 1)) = (some 'w', []) := by decide
  rw [doPrintf, dropWhile_literal l _ h, hdrop]
  simp only [hfast]
  cases fuel with
  | zero => simp [doPrintf]
  | succ n => simp [doPrintf]

theorem Errorf_literal (s : String) (h : Heap) (msg : String) (err : GoError)
    (hmsg : '%' ∉ msg.toList) :
    Errorf s h (msg ++ ": %w") [err] = (.wrapError h.next s err, ⟨h.next + 1⟩) := by
  have hlist : (msg ++ ": %w").toList = msg.toList ++ [':', ' ', '%', 'w'] := by
    simp [String.toList, String.data_append]
  simp only [Errorf, hlist, List.length_singleton, doPrintf_literal _ _ hmsg]
  rfl

/-- The claim of C5 as stated fails when the message holds a formatting verb:
in `fmt.Errorf("%v" + ": %w", ErrNotFound)` the verb `%v` takes the operand,
`%w` has none left, and the result is a plain `errors.New` value that
`IsNotFound` classifies false although `IsNotFound(ErrNotFound)` is true. -/
theorem errorf_verb_takes_operand :
    IsNotFound ErrNotFound = true ∧
    (Errorf "not found: %!w(MISSING)" initHeap ("%v" ++ ": %w") [ErrNotFound]).1 =
      .errorString 8 "not found: %!w(MISSING)" ∧
    IsNotFound (Errorf "not found: %!w(MISSING)" initHeap ("%v" ++ ": %w") [ErrNotFound]).1 =
      false := by
  refine ⟨by decide, by rfl, by decide⟩

/-- C5 as amended: when the message `msg` holds no `%` character, adding context
with `fmt.Errorf(msg + ": %w", err)` does not change the class of an error: each
of the eight predicates gives the same answer on the wrapped error as on `err`,
whether that answer is true or false. -/
theorem errorf_keeps_class (s : String) (h : Heap) (msg : String) (err : GoError)
    (hmsg : '%' ∉ msg.toList) :
    IsInvalidArgument (Errorf s h (msg ++ ": %w") [err]).1 = IsInvalidArgument err ∧
    IsNotFound (Errorf s h (msg ++ ": %w") [err]).1 = IsNotFound err ∧
    IsAlreadyExists (Errorf s h (msg ++ ": %w") [err]).1 = IsAlreadyExists err ∧
    IsFailedPrecondition (Errorf s h (msg ++ ": %w") [err]).1 = IsFailedPrecondition err ∧
    IsUnavailable (Errorf s h (msg ++ ": %w") [err]).1 = IsUnavailable err ∧
    IsNotImplemented (Errorf s h (msg ++ ": %w") [err]).1 = IsNotImplemented err ∧
    IsCanceled (Errorf s h (msg ++ ": %w") [err]).1 = IsCanceled err ∧
    IsDeadlineExceeded (Errorf s h (msg ++ ": %w") [err]).1 = IsDeadlineExceeded err := by
  rw [Errorf_literal s h msg err hmsg]
  exact ⟨Is_wrapError _ _ _ _ rfl rfl, Is_wrapError _ _ _ _ rfl rfl,
    Is_wrapError _ _ _ _ rfl rfl, Is_wrapError _ _ _ _ rfl rfl, Is_wrapError _ _ _ _ rfl rfl,
    Is_wrapError _ _ _ _ rfl rfl, Is_wrapError _ _ _ _ rfl rfl, Is_wrapError _ _ _ _ rfl rfl⟩

/-- Witness of C5: `ErrNotFound` wrapped with the literal message
`container c1` is still a NotFound error and of no other class. -/
theorem errorf_keeps_class_witness :
    (Errorf "container c1: not found" initHeap ("container c1" ++ ": %w") [ErrNotFound]).1 =
      .wrapError 8 "container c1: not found" ErrNotFound ∧
    IsNotFound
      (Errorf "container c1: not found" initHeap ("container c1" ++ ": %w") [ErrNotFound]).1
        = true ∧
    IsCanceled
      (Errorf "container c1: not found" initHeap ("container c1" ++ ": %w") [ErrNotFound]).1
        = false :=
  have h := errorf_keeps_class "container c1: not found" initHeap "container c1" ErrNotFound
    (by decide)
  ⟨by rfl, h.2.1.trans (by decide), h.2.2.2.2.2.2.1.trans (by decide)⟩

mutual
theorem linear_is_errorString :
    ∀ e : GoError, linear e = true →
      ∃ o : Option Nat, ∀ t s, is e (.errorString t s) true = (o == some t)
  | .nil, _ => ⟨none, fun t s => by simp [is]⟩
  | .errorString a _, _ => ⟨some a, fun t s => by simp [is, GoError.eq]⟩
  | .deadlineExceededError, _ => ⟨none, fun t s => by simp [is, GoError.eq]⟩
  | .wrapError a msg err, h => by
      simp only [linear] at h
      obtain ⟨o, ho⟩ := linear_is_errorString err h
      exact ⟨o, fun t s => by simp [is, GoError.eq, ho]⟩
  | .wrapErrors a msg errs, h => by
      simp only [linear] at h
      obtain ⟨o, ho⟩ := linearList_isAny_errorString errs h
      exact ⟨o, fun t s => by simp [is, GoError.eq, ho]⟩
theorem linearList_isAny_errorString :
    ∀ es : List GoError, linearList es = true →
      ∃ o : Option Nat, ∀ t s, isAny es (.errorString t s) true = (o == some t)
  | [], _ => ⟨none, fun t s => by simp [isAny]⟩
  | e :: es, h => by
      simp only [linearList, Bool.and_eq_true, List.isEmpty_iff] at h
      obtain ⟨o, ho⟩ := linear_is_errorString e h.1
      refine ⟨o, fun t s => ?_⟩
      rw [h.2]
      simp [isAny, ho]
end

theorem at_most_one_address (o : Option Nat) :
    (([2, 3, 4, 5, 6, 7] : List Nat).map (fun k => o == some k)).count true ≤ 1 := by
  cases o with
  | none => simp
  | some a =>
      simp only [List.map_cons, List.map_nil, List.count_cons, List.count_nil, beq_iff_eq,
        Option.some_beq_some]
      split_ifs <;> omega

/-- C9: on an error whose wrap chain is linear at most one of the six store
predicates returns true; on the bare sentinels `IsX(ErrY)` is true exactly when
`X = Y` (the rows are the six predicates and the columns the seven sentinels,
both in source order); and the seven sentinels are pairwise distinct values. -/
theorem store_kinds_exclusive :
    (∀ err : GoError, linear err = true →
      (storePredicates.map (fun p => p err)).count true ≤ 1) ∧
    storePredicates.map (fun p => sentinels.map p) =
      [[false, true, false, false, false, false, false],
       [false, false, true, false, false, false, false],
       [false, false, false, true, false, false, false],
       [false, false, false, false, true, false, false],
       [false, false, false, false, false, true, false],
       [false, false, false, false, false, false, true]] ∧
    sentinels.Pairwise (fun a b => GoError.eq a b = false) := by
  refine ⟨?_, by decide, by decide⟩
  intro err hlin
  obtain ⟨o, ho⟩ := linear_is_errorString err hlin
  have hmap : storePredicates.map (fun p => p err)
      = ([2, 3, 4, 5, 6, 7] : List Nat).map (fun k => o == some k) := by
    simp [storePredicates, IsInvalidArgument, IsNotFound, IsAlreadyExists,
      IsFailedPrecondition, IsUnavailable, IsNotImplemented, ErrInvalidArgument, ErrNotFound,
      ErrAlreadyExists, ErrFailedPrecondition, ErrUnavailable, ErrNotImplemented,
      Is_eq_is, GoError.eq, comparable, ho]
  rw [hmap]
  exact at_most_one_address o

/-- Witness of C9: `ErrNotFound` wrapped twice is linear and exactly one store
predicate, `IsNotFound`, holds of it. -/
theorem store_kinds_exclusive_witness :
    linear (wrapMany [(9, "get: load: not found"), (8, "load: not found")] ErrNotFound) = true ∧
    (storePredicates.map (fun p =>
      p (wrapMany [(9, "get: load: not found"), (8, "load: not found")] ErrNotFound))).count true
        ≤ 1 ∧
    IsNotFound (wrapMany [(9, "get: load: not found"), (8, "load: not found")] ErrNotFound)
      = true :=
  ⟨by decide, store_kinds_exclusive.1 _ (by decide), by decide⟩

end errdefs

/-! ## Theorems about the store contract -/

namespace containers

open errdefs

theorem sameField_self (f : Field) (a : Container) : sameField f a a = true := by
  cases f <;> simp [sameField]

theorem sameField_trans (f : Field) {a b c : Container} (hab : sameField f a b = true)
    (hbc : sameField f b c = true) : sameField f a c = true := by
  cases f <;> simp_all [sameField]

theorem sameField_copyField {f g : Field} (hne : f ≠ g) (src dst : Container) :
    sameField f (copyField g src dst) dst = true := by
  cases f <;> cases g <;> first | exact absurd rfl hne | simp [sameField, copyField]

theorem copyField_ID {g : Field} (hg : g.isMutable = true) (src dst : Container) :
    (copyField g src dst).ID = dst.ID := by
  cases g <;> first | rfl | simp [Field.isMutable] at hg

namespace Store

theorem fieldOfPath_name {path : String} {g : Field} (h : fieldOfPath path = some g) :
    g.name = path := by
  have := List.find?_some h
  simpa using this

theorem applyPaths_frame (container : Container) :
    ∀ (paths : List String) (acc r : Container), applyPaths container paths acc = .ok r →
      r.ID = acc.ID ∧ ∀ f : Field, f.name ∉ paths → sameField f r acc = true := by
  intro paths
  induction paths with
  | nil =>
      intro acc r h
      simp only [applyPaths, Except.ok.injEq] at h
      subst h
      exact ⟨rfl, fun f _ => sameField_self f _⟩
  | cons path paths ih =>
      intro acc r h
      simp only [applyPaths, applyPath] at h
      cases hp : fieldOfPath path with
      | none => simp [hp] at h
      | some g =>
          simp only [hp] at h
          by_cases hg : g.isMutable = true
          · simp only [hg, if_true] at h
            obtain ⟨hid, hrest⟩ := ih _ _ h
            refine ⟨hid.trans (copyField_ID hg _ _), fun f hf => ?_⟩
            simp only [List.mem_cons, not_or] at hf
            have hne : f ≠ g := by
              intro hfg
              exact hf.1 (hfg ▸ fieldOfPath_name hp)
            exact sameField_trans f (hrest f hf.2) (sameField_copyField hne _ _)
          · simp [hg] at h

theorem find_after_update (ctx : Context) (id : String) (updated : Container)
    (hid : updated.ID = id) (l : List (String × Container)) (r : String × Container)
    (h : l.find? (isEntry ctx id) = some r) :
    (l.map (fun e => if isEntry ctx id e then (e.1, updated) else e)).find? (isEntry ctx id)
      = some (r.1, updated) := by
  induction l with
  | nil => simp at h
  | cons e l ih =>
      simp only [List.map_cons]
      by_cases he : isEntry ctx id e = true
      · have hr : e = r := by simpa [List.find?_cons, he] using h
        have he2 : isEntry ctx id (e.1, updated) = true := by
          simp only [isEntry, Bool.and_eq_true, beq_iff_eq] at he ⊢
          exact ⟨he.1, hid⟩
        subst hr
        rw [if_pos he, List.find?_cons, he2]
      · have h2 : l.find? (isEntry ctx id) = some r := by
          simpa [List.find?_cons, he] using h
        rw [if_neg he, List.find?_cons]
        simp only [he]
        exact ih h2

/-- C7: after `Update` with one or more fieldpaths, the stored record equals the
record stored before on every field that the fieldpaths do not name (UpdateAt
aside), whatever value that field has in the passed container. -/
theorem update_frame (ctx : Context) (st : Store) (c c2 : Container) (fp : List String)
    (now : Nat) (hstored : Get ctx c.ID st = .ok c) (hid : c2.ID = c.ID) (hfp : fp ≠ []) :
    ∃ d, Get ctx c.ID (Update ctx c2 fp now st).1 = .ok d ∧
      ∀ f : Field, f ≠ Field.UpdateAt → f.name ∉ fp → sameField f d c = true := by
  have hempty : fp.isEmpty = false := by
    cases fp with
    | nil => exact absurd rfl hfp
    | cons _ _ => rfl
  have hlive : ctx.signal = Signal.live := by
    by_contra hdead
    simp [Get, hdead] at hstored
  simp only [Get, hlive, if_true] at hstored
  cases hfind : st.records.find? (isEntry ctx c.ID) with
  | none => simp [hfind] at hstored
  | some r =>
      have hr : r.2 = c := by simpa [hfind] using hstored
      simp only [Update, hlive, if_true, hid, hfind, hempty, Bool.false_eq_true, if_false]
      cases hap : applyPaths c2 fp r.2 with
      | error e =>
          refine ⟨c, ?_, fun f _ _ => sameField_self f c⟩
          simp [Get, hlive, hfind, hr]
      | ok c3 =>
          obtain ⟨hid3, hframe⟩ := applyPaths_frame c2 fp r.2 c3 hap
          refine ⟨{ c3 with UpdateAt := now }, ?_, fun f hf hnamed => ?_⟩
          · have := find_after_update ctx c.ID { c3 with UpdateAt := now }
              (by simpa [hr] using hid3) st.records r hfind
            simp [Get, hlive, this]
          · have h1 : sameField f { c3 with UpdateAt := now } c3 = true := by
              cases f <;> first | exact absurd rfl hf | simp [sameField]
            exact sameField_trans f h1 (hr ▸ hframe f hnamed)

/-- Witness of C7: updating `c1` with the fieldpath `Labels` stores the passed
Labels and the new UpdateAt, and keeps every other field of the stored record,
Image and Snapshotter included, although the passed container differs there. -/
theorem update_frame_witness :
    (Update ⟨"default", .live⟩ passedContainer ["Labels"] 20 sampleStore).1 =
      ⟨[("default", { sampleContainer with Labels := [("tier", "db")], UpdateAt := 20 })]⟩ ∧
    ∃ d, Get ⟨"default", .live⟩ sampleContainer.ID
        (Update ⟨"default", .live⟩ passedContainer ["Labels"] 20 sampleStore).1 = .ok d ∧
      ∀ f : Field, f ≠ Field.UpdateAt → f.name ∉ ["Labels"] →
        sameField f d sampleContainer = true :=
  ⟨by decide,
   update_frame ⟨"default", .live⟩ sampleStore sampleContainer passedContainer ["Labels"] 20
     rfl rfl (by decide)⟩

end Store

end containers
